import Mathlib

/-
Verification of the model/rest-api-spec reconciliation step of the
elasticsearch-specification repository, a shallow embedding of
`src/specification/compiler/steps/validate-rest-spec.ts`.

The validator walks every endpoint of the type model, flattens the
referenced request definition through its `inherits` chain
(`getProperties`), looks up the endpoint's entry in the json spec, and
emits one warning per path/query/body mismatch.  Fatal conditions
(missing definition, missing json-spec entry) abort the pass.

Warnings are written to the console as soon as they are found; we model
the observable behaviour of a run as the pair of the emitted warning
stream and the outcome (the returned model, or the thrown error).
The recursion of `getProperties` over the inheritance graph has no
cycle guard in the source; the embedding makes it total with an explicit
fuel parameter, and running out of fuel is reported as a distinguished
`outOfFuel` outcome that corresponds to the unbounded recursion of the
source on cyclic input.
-/

namespace RestSpecValidation

/-- Modelled from the spec: a `Property` of the type model is identified by
its `name`; no other attribute is inspected by the validator
(the metamodel declaration itself is not part of the analysed sources). -/
structure Property where
  name : String
deriving DecidableEq

/-- The `Body` enum of validate-rest-spec.ts (lines 27-30). -/
inductive Body where
  | noBody
  | yesBody
deriving DecidableEq

/-- Modelled from the spec: a type-model entity as consumed by the
validator.  A `request` carries `path` and `query` property groups, an
optional body marker (only its presence is inspected, kept as a `Bool`)
and an optional `inherits` list; an `interface` carries a single
`properties` group and an optional `inherits` list; every other kind of
entity is only ever name-checked, represented by `other`.  Each
`inherits` entry is kept as the referenced type name (the source only
reads `inherit.type.name`). -/
inductive TypeDef where
  | request (name : String) (path : List Property) (query : List Property)
      (hasBody : Bool) (inherits : Option (List String))
  | interface (name : String) (properties : List Property)
      (inherits : Option (List String))
  | other (name : String)
deriving DecidableEq

/-- Modelled from the spec: an endpoint has a `name` and an optional
request reference; only the referenced type's name is inspected. -/
structure Endpoint where
  name : String
  request : Option String
deriving DecidableEq

/-- Modelled from the spec: the type model handed to the validator,
with its `endpoints` and `types` sequences. -/
structure Model where
  endpoints : List Endpoint
  types : List TypeDef
deriving DecidableEq

/-- Modelled from the spec: one entry of `spec.url.paths`; `parts`, when
present, is a record whose keys are the path-part names (only
`Object.keys` of it is inspected). -/
structure UrlPath where
  parts : Option (List String)
deriving DecidableEq

/-- Modelled from the spec: the `url` field of a json-spec entry. -/
structure SpecUrl where
  paths : List UrlPath
deriving DecidableEq

/-- Modelled from the spec: the optional `body` field of a json-spec
entry carries a `required` flag. -/
structure SpecBody where
  required : Bool
deriving DecidableEq

/-- Modelled from the spec: one json-spec entry: `url.paths`, an optional
`params` record (only its key set is inspected) and an optional `body`. -/
structure JsonSpec where
  url : SpecUrl
  params : Option (List String)
  body : Option SpecBody
deriving DecidableEq

/-- Errors thrown by the pass: the failed lookup of a request/interface
definition (validate-rest-spec.ts line 108), the failed json-spec lookup
(line 46), and the fuel-exhaustion marker standing for the unbounded
recursion of the source on cyclic `inherits` input. -/
inductive VErr where
  | definitionNotFound (name : String)
  | specNotFound (endpointName : String)
  | outOfFuel
deriving DecidableEq

/-- One diagnostic per `console.warn` template of the source, carrying
the interpolated request-type name and (for parameters) the offending
parameter name (lines 59, 66, 76, 83, 89, 93). -/
inductive Warning where
  | pathNotInSpec (request : String) (param : String)
  | pathNotInModel (request : String) (param : String)
  | queryNotInSpec (request : String) (param : String)
  | queryNotInModel (request : String) (param : String)
  | bodyNotExpected (request : String)
  | bodyExpected (request : String)
deriving DecidableEq

/-- The result record of `getProperties` (line 112). -/
structure Flattened where
  path : List Property
  query : List Property
  body : Body
deriving DecidableEq

/-- The `LOG` constant of the source (line 32). -/
def LOG : String := "ALL"

/-- JavaScript `Array.prototype.includes` on string lists. -/
def includes (l : List String) (n : String) : Bool :=
  match l with
  | [] => false
  | x :: xs => if x = n then true else includes xs n

/-- Accumulator form of the `Array.from(new Set(...))` deduplication:
keeps the first occurrence of each element, in insertion order, skipping
elements already seen. -/
def jsDedupAux : List String → List String → List String
  | [], _ => []
  | x :: xs, seen =>
    if includes seen x then jsDedupAux xs seen
    else x :: jsDedupAux xs (x :: seen)

/-- JavaScript `Array.from(new Set(l))`: first occurrences in order. -/
def jsDedup (l : List String) : List String := jsDedupAux l []

/-- `getDefinition` (lines 100-109): first entity of kind request or
interface whose name matches; `none` models the thrown error. -/
def getDefinition (types : List TypeDef) (name : String) : Option TypeDef :=
  types.find? fun t =>
    match t with
    | .request n _ _ _ _ => n = name
    | .interface n _ _ => n = name
    | .other _ => false

/-- The `inherits` field read by `Array.isArray(definition.inherits)`
(line 135); `none` models an absent field. -/
def inheritsOf : TypeDef → Option (List String)
  | .request _ _ _ _ inherits => inherits
  | .interface _ _ inherits => inherits
  | .other _ => none

/-- The entity's own contribution in `getProperties` (lines 113-133):
a request contributes its path and query groups and a body state derived
from the presence of its body; an interface contributes its properties
as query.  (`other` is never reached: `getDefinition` only returns
requests and interfaces.) -/
def ownProperties : TypeDef → Flattened
  | .request _ path query hasBody _ =>
    { path := path, query := query
      body := if hasBody then Body.yesBody else Body.noBody }
  | .interface _ properties _ =>
    { path := [], query := properties, body := Body.noBody }
  | .other _ => { path := [], query := [], body := Body.noBody }

/-- The `definition.inherits.map(inherit => getDefinition(...))` step
(line 136): left-to-right lookups, the first failure throws. -/
def lookupInherits (types : List TypeDef) : List String → Except VErr (List TypeDef)
  | [] => .ok []
  | n :: ns =>
    match getDefinition types n with
    | none => .error (.definitionNotFound n)
    | some d =>
      match lookupInherits types ns with
      | .error e => .error e
      | .ok ds => .ok (d :: ds)

/-- The `for (const inherit of inherits)` loop of `getProperties`
(lines 137-150): each ancestor is flattened by `rec`, its path and query
lists are appended to the accumulator, and the body state is overwritten
whenever it differs from the ancestor's. -/
def flattenInherits (rec : TypeDef → Except VErr Flattened) :
    List TypeDef → Flattened → Except VErr Flattened
  | [], acc => .ok acc
  | p :: ps, acc =>
    match rec p with
    | .error e => .error e
    | .ok properties =>
      flattenInherits rec ps
        { path := acc.path ++ properties.path
          query := acc.query ++ properties.query
          body := if acc.body ≠ properties.body then properties.body else acc.body }

/-- `getProperties` (lines 112-154), made total by a fuel parameter
bounding the recursion depth through the inheritance graph (the source
has no cycle guard and recurses unboundedly on cyclic input, modelled by
the `outOfFuel` error). -/
def getProperties (types : List TypeDef) : Nat → TypeDef → Except VErr Flattened
  | 0 => fun _ => .error .outOfFuel
  | fuel + 1 => fun definition =>
    match inheritsOf definition with
    | none => .ok (ownProperties definition)
    | some inhs =>
      match lookupInherits types inhs with
      | .error e => .error e
      | .ok parents =>
        flattenInherits (getProperties types fuel) parents (ownProperties definition)

/-- The deduplicated union of path-part names across all url paths of a
json-spec entry (lines 48-54). -/
def urlParts (spec : JsonSpec) : List String :=
  jsDedup ((spec.url.paths.filterMap UrlPath.parts).flatten)

/-- The `pathProperties` local of the source (line 55): names of the
flattened path properties. -/
def pathProperties (requestDefinition : Flattened) : List String :=
  requestDefinition.path.map Property.name

/-- The `queryProperties` local of the source (line 72): names of the
flattened query properties. -/
def queryProperties (requestDefinition : Flattened) : List String :=
  requestDefinition.query.map Property.name

/-- Path-parameter reconciliation (lines 55-68): one warning per
flattened path name missing from the spec's parts (in order, once per
occurrence), then one per deduplicated spec part missing from the
flattened names. -/
def checkPath (requestName : String) (requestDefinition : Flattened)
    (spec : JsonSpec) : List Warning :=
  ((pathProperties requestDefinition).filter fun n => !includes (urlParts spec) n).map
      (Warning.pathNotInSpec requestName)
    ++ ((urlParts spec).filter fun n => !includes (pathProperties requestDefinition) n).map
      (Warning.pathNotInModel requestName)

/-- Query-parameter reconciliation (lines 70-86): skipped entirely when
the spec has no `params` record. -/
def checkQuery (requestName : String) (requestDefinition : Flattened)
    (spec : JsonSpec) : List Warning :=
  match spec.params with
  | none => []
  | some params =>
    ((queryProperties requestDefinition).filter fun n => !includes params n).map
        (Warning.queryNotInSpec requestName)
      ++ (params.filter fun n => !includes (queryProperties requestDefinition) n).map
        (Warning.queryNotInModel requestName)

/-- The `spec.body != null && spec.body.required === true` test of
line 92. -/
def specBodyRequiredTrue (spec : JsonSpec) : Bool :=
  match spec.body with
  | some sb => sb.required
  | none => false

/-- Body reconciliation (lines 88-94): two directional rules, not a
symmetric diff. -/
def checkBody (requestName : String) (requestDefinition : Flattened)
    (spec : JsonSpec) : List Warning :=
  (if requestDefinition.body = Body.yesBody ∧ spec.body = none
    then [Warning.bodyNotExpected requestName] else [])
    ++ (if requestDefinition.body = Body.noBody ∧ specBodyRequiredTrue spec = true
      then [Warning.bodyExpected requestName] else [])

/-- All warnings of one endpoint, in the order the source emits them:
path section, query section, body section. -/
def checkEndpoint (requestName : String) (requestDefinition : Flattened)
    (spec : JsonSpec) : List Warning :=
  checkPath requestName requestDefinition spec
    ++ checkQuery requestName requestDefinition spec
    ++ checkBody requestName requestDefinition spec

/-- `jsonSpec.get(endpoint.name)` on the spec map (line 45), the map
represented as an association list with unique keys. -/
def lookupSpec (jsonSpec : List (String × JsonSpec)) (name : String) : Option JsonSpec :=
  (jsonSpec.find? fun p => p.1 = name).map Prod.snd

/-- One iteration of the endpoint loop (lines 41-95): the emitted
warnings and the outcome.  A `null` request skips the endpoint; then the
definition is resolved and flattened, and under the `LOG` condition
(always true, `LOG = "ALL"`) the json-spec entry is asserted and the
three reconciliations run. -/
def runEndpoint (types : List TypeDef) (fuel : Nat)
    (jsonSpec : List (String × JsonSpec)) (endpoint : Endpoint) :
    List Warning × Except VErr Unit :=
  match endpoint.request with
  | none => ([], .ok ())
  | some requestName =>
    match getDefinition types requestName with
    | none => ([], .error (.definitionNotFound requestName))
    | some d =>
      match getProperties types fuel d with
      | .error e => ([], .error e)
      | .ok requestDefinition =>
        if requestName = LOG ∨ LOG = "ALL" then
          match lookupSpec jsonSpec endpoint.name with
          | none => ([], .error (.specNotFound endpoint.name))
          | some spec => (checkEndpoint requestName requestDefinition spec, .ok ())
        else ([], .ok ())

/-- The endpoint loop: warnings already written to the console are kept
when a later endpoint throws (the source warns eagerly and aborts on the
first fatal error). -/
def runEndpoints (types : List TypeDef) (fuel : Nat)
    (jsonSpec : List (String × JsonSpec)) : List Endpoint → List Warning × Except VErr Unit
  | [] => ([], .ok ())
  | endpoint :: rest =>
    match runEndpoint types fuel jsonSpec endpoint with
    | (ws, .error e) => (ws, .error e)
    | (ws, .ok _) =>
      let (ws', r) := runEndpoints types fuel jsonSpec rest
      (ws ++ ws', r)

/-- `validateRestSpec` (lines 40-99): the warning stream of the run and
either the unchanged input model (line 98) or the thrown error. -/
def validateRestSpec (fuel : Nat) (model : Model)
    (jsonSpec : List (String × JsonSpec)) : List Warning × Except VErr Model :=
  match runEndpoints model.types fuel jsonSpec model.endpoints with
  | (ws, .ok _) => (ws, .ok model)
  | (ws, .error e) => (ws, .error e)

instance {ε α : Type} [DecidableEq ε] [DecidableEq α] : DecidableEq (Except ε α)
  | .error e, .error f =>
    if h : e = f then .isTrue (congrArg Except.error h)
    else .isFalse fun c => h (Except.error.inj c)
  | .error _, .ok _ => .isFalse fun c => Except.noConfusion c
  | .ok _, .error _ => .isFalse fun c => Except.noConfusion c
  | .ok a, .ok b =>
    if h : a = b then .isTrue (congrArg Except.ok h)
    else .isFalse fun c => h (Except.ok.inj c)

/-- Number of occurrences of an element in a list. -/
def occCount {α : Type} [DecidableEq α] (a : α) : List α → Nat
  | [] => 0
  | x :: xs => (if x = a then 1 else 0) + occCount a xs

/-- Direct-ancestor relation induced by the `inherits` lists: `p` is a
resolved parent of `d`. -/
def parentOf (types : List TypeDef) (d p : TypeDef) : Prop :=
  ∃ inhs i, inheritsOf d = some inhs ∧ i ∈ inhs ∧ getDefinition types i = some p

/-- Reflexive-transitive closure of the resolved `inherits` relation:
`Reaches types d a` holds when `a` is `d` itself or a transitive
ancestor of `d`. -/
inductive Reaches (types : List TypeDef) : TypeDef → TypeDef → Prop
  | refl (d : TypeDef) : Reaches types d d
  | step {d a b : TypeDef} (inhs : List String) (i : String) :
      inheritsOf d = some inhs → i ∈ inhs → getDefinition types i = some a →
      Reaches types a b → Reaches types d b

/-- Decidable check that flattening an endpoint's request does not hit
fuel exhaustion (used to state claims free of the fuel artefact). -/
def endpointFuelOk (types : List TypeDef) (fuel : Nat) (endpoint : Endpoint) : Bool :=
  match endpoint.request with
  | none => true
  | some requestName =>
    match getDefinition types requestName with
    | none => true
    | some d =>
      match getProperties types fuel d with
      | .error .outOfFuel => false
      | _ => true

lemma gp_zero (types : List TypeDef) (d : TypeDef) :
    getProperties types 0 d = .error .outOfFuel := rfl

lemma gp_succ (types : List TypeDef) (fuel : Nat) (d : TypeDef) :
    getProperties types (fuel + 1) d =
      (match inheritsOf d with
       | none => Except.ok (ownProperties d)
       | some inhs =>
         match lookupInherits types inhs with
         | Except.error e => Except.error e
         | Except.ok parents =>
           flattenInherits (getProperties types fuel) parents (ownProperties d)) := rfl

lemma gp_succ_none (types : List TypeDef) (fuel : Nat) (d : TypeDef)
    (hin : inheritsOf d = none) :
    getProperties types (fuel + 1) d = .ok (ownProperties d) := by
  rw [gp_succ, hin]

lemma gp_succ_some (types : List TypeDef) (fuel : Nat) (d : TypeDef)
    (inhs : List String) (hin : inheritsOf d = some inhs) :
    getProperties types (fuel + 1) d =
      (match lookupInherits types inhs with
       | Except.error e => Except.error e
       | Except.ok parents =>
         flattenInherits (getProperties types fuel) parents (ownProperties d)) := by
  rw [gp_succ, hin]

lemma includes_iff (l : List String) (n : String) : includes l n = true ↔ n ∈ l := by
  induction l with
  | nil => simp [includes]
  | cons x xs ih =>
    simp only [includes]
    by_cases h : x = n
    · subst h
      simp
    · rw [if_neg h, ih]
      constructor
      · exact fun hm => List.mem_cons_of_mem x hm
      · intro hm
        rcases List.mem_cons.mp hm with h1 | h1
        · exact absurd h1.symm h
        · exact h1

lemma bnot_eq_true (b : Bool) : (!b) = true ↔ b = false := by
  cases b <;> simp

lemma includes_eq_false (l : List String) (n : String) :
    includes l n = false ↔ n ∉ l := by
  rw [← includes_iff]
  cases includes l n <;> simp

lemma occCount_append {α : Type} [DecidableEq α] (a : α) (l m : List α) :
    occCount a (l ++ m) = occCount a l + occCount a m := by
  induction l with
  | nil => simp [occCount]
  | cons x xs ih => simp [occCount, ih, Nat.add_assoc]

lemma occCount_map_inj {α β : Type} [DecidableEq α] [DecidableEq β] (f : α → β)
    (hf : ∀ x y, f x = f y → x = y) (a : α) (l : List α) :
    occCount (f a) (l.map f) = occCount a l := by
  induction l with
  | nil => rfl
  | cons x xs ih =>
    simp only [List.map_cons, occCount, ih]
    congr 1
    by_cases h : x = a
    · simp [h]
    · rw [if_neg h, if_neg fun c => h (hf _ _ c)]

lemma occCount_map_ne {α β : Type} [DecidableEq β] (f : α → β) (w : β)
    (hw : ∀ x, f x ≠ w) (l : List α) : occCount w (l.map f) = 0 := by
  induction l with
  | nil => rfl
  | cons x xs ih => simp [occCount, ih, hw x]

lemma occCount_filter {α : Type} [DecidableEq α] (p : α → Bool) (a : α) (l : List α) :
    occCount a (l.filter p) = if p a = true then occCount a l else 0 := by
  induction l with
  | nil => simp [occCount]
  | cons x xs ih =>
    by_cases hx : p x = true
    · rw [List.filter_cons_of_pos hx]
      simp only [occCount, ih]
      by_cases hxa : x = a
      · subst hxa
        simp [hx]
      · simp [hxa]
    · rw [List.filter_cons_of_neg hx, ih]
      by_cases hxa : x = a
      · subst hxa
        simp only [occCount]
        rw [if_neg hx, if_neg hx]
      · simp only [occCount, if_neg hxa, Nat.zero_add]

lemma mem_iff_occCount_ne_zero {α : Type} [DecidableEq α] (a : α) (l : List α) :
    a ∈ l ↔ occCount a l ≠ 0 := by
  induction l with
  | nil => simp [occCount]
  | cons x xs ih =>
    by_cases h : x = a
    · subst h
      simp [occCount]
    · simp only [occCount, if_neg h, Nat.zero_add, ← ih, List.mem_cons]
      constructor
      · rintro (h1 | h1)
        · exact absurd h1.symm h
        · exact h1
      · exact fun h1 => Or.inr h1

lemma occCount_jsDedupAux (a : String) (l : List String) :
    ∀ seen : List String,
      occCount a (jsDedupAux l seen) = if a ∈ l ∧ a ∉ seen then 1 else 0 := by
  induction l with
  | nil => intro seen; simp [jsDedupAux, occCount]
  | cons x xs ih =>
    intro seen
    simp only [jsDedupAux]
    by_cases hx : includes seen x = true
    · rw [if_pos hx, ih seen]
      have hxs : x ∈ seen := (includes_iff _ _).mp hx
      by_cases hax : a = x
      · subst hax
        simp [hxs]
      · simp [List.mem_cons, hax]
    · rw [if_neg hx]
      have hxs : x ∉ seen := (includes_eq_false _ _).mp (by
        cases h : includes seen x
        · rfl
        · exact absurd h hx)
      simp only [occCount, ih (x :: seen)]
      by_cases hax : x = a
      · subst hax
        simp [List.mem_cons, hxs]
      · have hax' : ¬a = x := fun c => hax c.symm
        simp [List.mem_cons, hax, hax']

lemma occCount_jsDedup (a : String) (l : List String) :
    occCount a (jsDedup l) = if a ∈ l then 1 else 0 := by
  rw [jsDedup, occCount_jsDedupAux]
  simp

lemma mem_jsDedup (a : String) (l : List String) : a ∈ jsDedup l ↔ a ∈ l := by
  rw [mem_iff_occCount_ne_zero, occCount_jsDedup]
  by_cases h : a ∈ l <;> simp [h]

lemma occCount_urlParts (spec : JsonSpec) (n : String) :
    occCount n (urlParts spec) = if n ∈ urlParts spec then 1 else 0 := by
  unfold urlParts
  rw [occCount_jsDedup]
  by_cases h : n ∈ (spec.url.paths.filterMap UrlPath.parts).flatten
  · rw [if_pos h, if_pos ((mem_jsDedup _ _).mpr h)]
  · rw [if_neg h, if_neg fun c => h ((mem_jsDedup _ _).mp c)]

lemma getDefinition_mem (types : List TypeDef) (n : String) (d : TypeDef)
    (h : getDefinition types n = some d) : d ∈ types :=
  List.mem_of_find?_eq_some h

lemma lookupInherits_err (types : List TypeDef) (ns : List String) (e : VErr)
    (h : lookupInherits types ns = .error e) : ∃ n, e = .definitionNotFound n := by
  induction ns generalizing e with
  | nil =>
    unfold lookupInherits at h
    cases h
  | cons n ns ih =>
    unfold lookupInherits at h
    cases hd : getDefinition types n with
    | none =>
      rw [hd] at h
      cases h
      exact ⟨n, rfl⟩
    | some d =>
      rw [hd] at h
      cases hl : lookupInherits types ns with
      | error e' =>
        rw [hl] at h
        cases h
        exact ih _ hl
      | ok ds =>
        rw [hl] at h
        cases h

lemma lookupInherits_mem (types : List TypeDef) (ns : List String) (ds : List TypeDef)
    (h : lookupInherits types ns = .ok ds) (i : String) (hi : i ∈ ns) (a : TypeDef)
    (ha : getDefinition types i = some a) : a ∈ ds := by
  induction ns generalizing ds with
  | nil => cases hi
  | cons n ns ih =>
    unfold lookupInherits at h
    cases hd : getDefinition types n with
    | none =>
      rw [hd] at h
      cases h
    | some d =>
      rw [hd] at h
      cases hl : lookupInherits types ns with
      | error e =>
        rw [hl] at h
        cases h
      | ok ds' =>
        rw [hl] at h
        cases h
        rcases List.mem_cons.mp hi with h1 | h1
        · subst h1
          rw [hd] at ha
          cases ha
          exact List.mem_cons_self _ _
        · exact List.mem_cons_of_mem d (ih ds' hl h1)

lemma lookupInherits_mem_rev (types : List TypeDef) (ns : List String)
    (ds : List TypeDef) (h : lookupInherits types ns = .ok ds) (p : TypeDef)
    (hp : p ∈ ds) : ∃ i ∈ ns, getDefinition types i = some p := by
  induction ns generalizing ds with
  | nil =>
    unfold lookupInherits at h
    cases h
    cases hp
  | cons n ns ih =>
    unfold lookupInherits at h
    cases hd : getDefinition types n with
    | none =>
      rw [hd] at h
      cases h
    | some d =>
      rw [hd] at h
      cases hl : lookupInherits types ns with
      | error e =>
        rw [hl] at h
        cases h
      | ok ds' =>
        rw [hl] at h
        cases h
        rcases List.mem_cons.mp hp with h1 | h1
        · subst h1
          exact ⟨n, List.mem_cons_self _ _, hd⟩
        · obtain ⟨i, hi, hdef⟩ := ih ds' hl h1
          exact ⟨i, List.mem_cons_of_mem _ hi, hdef⟩

lemma lookupInherits_last (types : List TypeDef) (ns : List String) (lastN : String)
    (ds : List TypeDef) (h : lookupInherits types (ns ++ [lastN]) = .ok ds) :
    ∃ ds' d, ds = ds' ++ [d] ∧ getDefinition types lastN = some d := by
  induction ns generalizing ds with
  | nil =>
    simp only [List.nil_append] at h
    unfold lookupInherits at h
    cases hd : getDefinition types lastN with
    | none =>
      rw [hd] at h
      cases h
    | some d =>
      rw [hd] at h
      simp only [lookupInherits] at h
      cases h
      exact ⟨[], d, rfl, rfl⟩
  | cons n ns ih =>
    simp only [List.cons_append] at h
    unfold lookupInherits at h
    cases hd : getDefinition types n with
    | none =>
      rw [hd] at h
      cases h
    | some d =>
      rw [hd] at h
      cases hl : lookupInherits types (ns ++ [lastN]) with
      | error e =>
        rw [hl] at h
        cases h
      | ok ds'' =>
        rw [hl] at h
        cases h
        obtain ⟨ds2, dl, heq, hdef⟩ := ih ds'' hl
        exact ⟨d :: ds2, dl, by rw [heq]; rfl, hdef⟩

lemma flattenInherits_acc_sub (rec : TypeDef → Except VErr Flattened) :
    ∀ (ps : List TypeDef) (acc f : Flattened),
      flattenInherits rec ps acc = .ok f →
      acc.path ⊆ f.path ∧ acc.query ⊆ f.query := by
  intro ps
  induction ps with
  | nil =>
    intro acc f h
    unfold flattenInherits at h
    cases h
    exact ⟨List.Subset.refl _, List.Subset.refl _⟩
  | cons p ps ih =>
    intro acc f h
    unfold flattenInherits at h
    cases hr : rec p with
    | error e =>
      rw [hr] at h
      cases h
    | ok props =>
      rw [hr] at h
      have hs := ih _ f h
      exact ⟨List.Subset.trans (List.subset_append_left _ _) hs.1,
        List.Subset.trans (List.subset_append_left _ _) hs.2⟩

lemma flattenInherits_mem (rec : TypeDef → Except VErr Flattened) :
    ∀ (ps : List TypeDef) (acc f : Flattened) (p : TypeDef),
      flattenInherits rec ps acc = .ok f → p ∈ ps →
      ∃ pf, rec p = .ok pf ∧ pf.path ⊆ f.path ∧ pf.query ⊆ f.query := by
  intro ps
  induction ps with
  | nil =>
    intro _ _ _ _ hp
    cases hp
  | cons q ps ih =>
    intro acc f p h hp
    unfold flattenInherits at h
    cases hr : rec q with
    | error e =>
      rw [hr] at h
      cases h
    | ok props =>
      rw [hr] at h
      rcases List.mem_cons.mp hp with h1 | h1
      · subst h1
        have hacc := flattenInherits_acc_sub rec ps _ f h
        exact ⟨props, hr,
          List.Subset.trans (List.subset_append_right _ _) hacc.1,
          List.Subset.trans (List.subset_append_right _ _) hacc.2⟩
      · exact ih _ f p h h1

lemma flattenInherits_last (rec : TypeDef → Except VErr Flattened) :
    ∀ (ps : List TypeDef) (p : TypeDef) (acc f : Flattened),
      flattenInherits rec (ps ++ [p]) acc = .ok f →
      ∃ pf, rec p = .ok pf ∧ f.body = pf.body := by
  intro ps
  induction ps with
  | nil =>
    intro p acc f h
    simp only [List.nil_append] at h
    unfold flattenInherits at h
    cases hr : rec p with
    | error e =>
      rw [hr] at h
      cases h
    | ok props =>
      rw [hr] at h
      simp only [flattenInherits] at h
      cases h
      refine ⟨props, rfl, ?_⟩
      show (if acc.body ≠ props.body then props.body else acc.body) = props.body
      by_cases hb : acc.body = props.body
      · rw [if_neg (not_not_intro hb)]
        exact hb
      · rw [if_pos hb]
  | cons q ps ih =>
    intro p acc f h
    simp only [List.cons_append] at h
    unfold flattenInherits at h
    cases hr : rec q with
    | error e =>
      rw [hr] at h
      cases h
    | ok props =>
      rw [hr] at h
      exact ih p _ f h

lemma flattenInherits_err (rec : TypeDef → Except VErr Flattened) :
    ∀ (ps : List TypeDef) (acc : Flattened) (e : VErr),
      flattenInherits rec ps acc = .error e → ∃ p ∈ ps, rec p = .error e := by
  intro ps
  induction ps with
  | nil =>
    intro acc e h
    unfold flattenInherits at h
    cases h
  | cons q ps ih =>
    intro acc e h
    unfold flattenInherits at h
    cases hr : rec q with
    | error e' =>
      rw [hr] at h
      cases h
      exact ⟨q, List.mem_cons_self _ _, hr⟩
    | ok props =>
      rw [hr] at h
      obtain ⟨p, hp, hrp⟩ := ih _ e h
      exact ⟨p, List.mem_cons_of_mem q hp, hrp⟩

lemma flattenInherits_no_oof (rec : TypeDef → Except VErr Flattened)
    (ps : List TypeDef) (acc : Flattened)
    (hp : ∀ p ∈ ps, rec p ≠ .error .outOfFuel) :
    flattenInherits rec ps acc ≠ .error .outOfFuel := by
  intro h
  obtain ⟨p, hmem, hrp⟩ := flattenInherits_err rec ps acc _ h
  exact hp p hmem hrp

lemma getProperties_err (types : List TypeDef) :
    ∀ (fuel : Nat) (d : TypeDef) (e : VErr),
      getProperties types fuel d = .error e →
      e = .outOfFuel ∨ ∃ n, e = .definitionNotFound n := by
  intro fuel
  induction fuel with
  | zero =>
    intro d e h
    rw [gp_zero] at h
    cases h
    exact Or.inl rfl
  | succ fuel ih =>
    intro d e h
    cases hin : inheritsOf d with
    | none =>
      rw [gp_succ_none types fuel d hin] at h
      cases h
    | some inhs =>
      rw [gp_succ_some types fuel d inhs hin] at h
      cases hl : lookupInherits types inhs with
      | error e' =>
        rw [hl] at h
        cases h
        exact Or.inr (lookupInherits_err types inhs _ hl)
      | ok parents =>
        rw [hl] at h
        obtain ⟨p, hp, hrp⟩ :=
          flattenInherits_err (getProperties types fuel) parents (ownProperties d) e h
        exact ih p e hrp

lemma getProperties_own_sub (types : List TypeDef) (fuel : Nat) (d : TypeDef)
    (f : Flattened) (h : getProperties types fuel d = .ok f) :
    (ownProperties d).path ⊆ f.path ∧ (ownProperties d).query ⊆ f.query := by
  cases fuel with
  | zero =>
    rw [gp_zero] at h
    cases h
  | succ fuel =>
    cases hin : inheritsOf d with
    | none =>
      rw [gp_succ_none types fuel d hin] at h
      cases h
      exact ⟨List.Subset.refl _, List.Subset.refl _⟩
    | some inhs =>
      rw [gp_succ_some types fuel d inhs hin] at h
      cases hl : lookupInherits types inhs with
      | error e =>
        rw [hl] at h
        cases h
      | ok parents =>
        rw [hl] at h
        exact flattenInherits_acc_sub _ _ _ _ h

lemma runEndpoints_cons (types : List TypeDef) (fuel : Nat)
    (js : List (String × JsonSpec)) (ep : Endpoint) (eps : List Endpoint) :
    runEndpoints types fuel js (ep :: eps) =
      (match runEndpoint types fuel js ep with
       | (ws, Except.error e) => (ws, Except.error e)
       | (ws, Except.ok _) =>
         (ws ++ (runEndpoints types fuel js eps).1, (runEndpoints types fuel js eps).2)) := by
  simp only [runEndpoints]

lemma runEndpoints_cons_snd (types : List TypeDef) (fuel : Nat)
    (js : List (String × JsonSpec)) (ep : Endpoint) (eps : List Endpoint) :
    (runEndpoints types fuel js (ep :: eps)).2 =
      (match (runEndpoint types fuel js ep).2 with
       | Except.error e => Except.error e
       | Except.ok _ => (runEndpoints types fuel js eps).2) := by
  rw [runEndpoints_cons]
  cases hre : runEndpoint types fuel js ep with
  | mk ws r =>
    cases r with
    | error e => rfl
    | ok u => rfl

lemma validateRestSpec_error_iff (fuel : Nat) (m : Model)
    (js : List (String × JsonSpec)) :
    (∃ e, (validateRestSpec fuel m js).2 = Except.error e) ↔
      (∃ e, (runEndpoints m.types fuel js m.endpoints).2 = Except.error e) := by
  unfold validateRestSpec
  cases hr : runEndpoints m.types fuel js m.endpoints with
  | mk ws r =>
    cases r with
    | ok u => simp
    | error e => simp

lemma runEndpoint_snd_error_iff (types : List TypeDef) (fuel : Nat)
    (js : List (String × JsonSpec)) (ep : Endpoint)
    (hfu : endpointFuelOk types fuel ep = true) :
    (∃ e, (runEndpoint types fuel js ep).2 = Except.error e) ↔
      ∃ rn, ep.request = some rn ∧
        (getDefinition types rn = none
          ∨ (∃ n d, getDefinition types rn = some d ∧
              getProperties types fuel d = Except.error (VErr.definitionNotFound n))
          ∨ lookupSpec js ep.name = none) := by
  cases hq : ep.request with
  | none => simp [runEndpoint, hq]
  | some rn =>
    cases hd : getDefinition types rn with
    | none =>
      simp only [runEndpoint, hq, hd]
      refine iff_of_true ⟨VErr.definitionNotFound rn, rfl⟩ ⟨rn, rfl, Or.inl hd⟩
    | some d =>
      cases hg : getProperties types fuel d with
      | error e =>
        have he : e ≠ VErr.outOfFuel := by
          intro hcon
          subst hcon
          simp only [endpointFuelOk, hq, hd, hg] at hfu
          exact Bool.noConfusion hfu
        rcases getProperties_err types fuel d e hg with h1 | ⟨n, h1⟩
        · exact absurd h1 he
        · subst h1
          simp only [runEndpoint, hq, hd, hg]
          refine iff_of_true ⟨VErr.definitionNotFound n, rfl⟩
            ⟨rn, rfl, Or.inr (Or.inl ⟨n, d, hd, hg⟩)⟩
      | ok rd =>
        simp only [runEndpoint, hq, hd, hg]
        have hcond : rn = LOG ∨ LOG = "ALL" := Or.inr rfl
        rw [if_pos hcond]
        cases hs : lookupSpec js ep.name with
        | none =>
          refine iff_of_true ⟨VErr.specNotFound ep.name, rfl⟩ ⟨rn, rfl, Or.inr (Or.inr rfl)⟩
        | some spec =>
          refine iff_of_false ?_ ?_
          · rintro ⟨e, he⟩
            cases he
          · rintro ⟨rn', hrn', hbad⟩
            cases hrn'
            rcases hbad with h1 | ⟨n, d', h1, h2⟩ | h1
            · rw [hd] at h1
              cases h1
            · rw [hd] at h1
              cases h1
              rw [hg] at h2
              cases h2
            · cases h1

lemma runEndpoints_error_iff (types : List TypeDef) (fuel : Nat)
    (js : List (String × JsonSpec)) :
    ∀ eps : List Endpoint, (∀ ep ∈ eps, endpointFuelOk types fuel ep = true) →
      ((∃ e, (runEndpoints types fuel js eps).2 = Except.error e) ↔
        ∃ ep ∈ eps, ∃ rn, ep.request = some rn ∧
          (getDefinition types rn = none
            ∨ (∃ n d, getDefinition types rn = some d ∧
                getProperties types fuel d = Except.error (VErr.definitionNotFound n))
            ∨ lookupSpec js ep.name = none)) := by
  intro eps
  induction eps with
  | nil =>
    intro _
    simp [runEndpoints]
  | cons ep eps ih =>
    intro hfu
    have hep := hfu ep (List.mem_cons_self _ _)
    have ihr := ih fun p hp => hfu p (List.mem_cons_of_mem _ hp)
    rw [runEndpoints_cons_snd]
    cases hre : (runEndpoint types fuel js ep).2 with
    | error e =>
      have hrhs := (runEndpoint_snd_error_iff types fuel js ep hep).mp ⟨e, hre⟩
      exact iff_of_true ⟨e, rfl⟩ ⟨ep, List.mem_cons_self _ _, hrhs⟩
    | ok u =>
      have hne : ¬∃ e', (runEndpoint types fuel js ep).2 = Except.error e' := by
        rintro ⟨e', he'⟩
        rw [hre] at he'
        cases he'
      constructor
      · intro hl
        obtain ⟨p, hp, hrest⟩ := ihr.mp hl
        exact ⟨p, List.mem_cons_of_mem _ hp, hrest⟩
      · rintro ⟨p, hp, hrest⟩
        rcases List.mem_cons.mp hp with h1 | h1
        · subst h1
          exact absurd ((runEndpoint_snd_error_iff types fuel js p hep).mpr hrest) hne
        · exact ihr.mpr ⟨p, h1, hrest⟩

def c1A : TypeDef := .request "A" [] [] false none

def c1R : TypeDef := .request "R" [] [] true (some ["A"])

def c1Types : List TypeDef := [c1R, c1A]

/-- C1, counterexample: the request `R` declares a body, but flattening it
through its single body-less ancestor `A` yields body state `noBody`: the
ancestor's state overwrites the entity's own declaration, so the claimed
monotone combination (any declared body forces `yesBody`) is false. -/
theorem c1_counterexample :
    (ownProperties c1R).body = Body.yesBody ∧
    getProperties c1Types 2 c1R = Except.ok ⟨[], [], Body.noBody⟩ ∧
    Body.noBody ≠ Body.yesBody :=
  ⟨rfl, rfl, by decide⟩

/-- C1 (amended): if the entity itself declares a body and its `inherits`
field is absent or the empty list, the flattened body state is `yesBody`;
with a non-empty `inherits` list the ancestors' states overwrite the
entity's own declaration (last ancestor wins, see C2). -/
theorem c1_body_own_when_no_inherits (types : List TypeDef) (fuel : Nat) (d : TypeDef) (f : Flattened)
    (hin : inheritsOf d = none ∨ inheritsOf d = some [])
    (hb : (ownProperties d).body = Body.yesBody)
    (h : getProperties types fuel d = Except.ok f) : f.body = Body.yesBody := by
  cases fuel with
  | zero =>
    rw [gp_zero] at h
    cases h
  | succ fuel =>
    rcases hin with hin | hin
    · rw [gp_succ_none types fuel d hin] at h
      cases h
      exact hb
    · rw [gp_succ_some types fuel d [] hin] at h
      cases h
      exact hb

def c1wR : TypeDef := .request "W" [] [] true none

def c1wTypes : List TypeDef := [c1wR]

/-- C1, witness: a body-declaring request without inherits flattens to
body state `yesBody`. -/
theorem c1_witness :
    ∃ f, getProperties c1wTypes 1 c1wR = Except.ok f ∧ f.body = Body.yesBody :=
  ⟨⟨[], [], Body.yesBody⟩, rfl,
    c1_body_own_when_no_inherits c1wTypes 1 c1wR ⟨[], [], Body.yesBody⟩ (Or.inl rfl) rfl rfl⟩

/-- C2: with a non-empty inherits list (written `ns ++ [lastN]`), a
successful flattening takes its body state from the flattened body state
of the last ancestor in declaration order. -/
theorem c2_body_last_ancestor (types : List TypeDef) (fuel : Nat) (d : TypeDef) (f : Flattened)
    (ns : List String) (lastN : String)
    (hin : inheritsOf d = some (ns ++ [lastN]))
    (h : getProperties types (fuel + 1) d = Except.ok f) :
    ∃ ld lf, getDefinition types lastN = some ld ∧
      getProperties types fuel ld = Except.ok lf ∧ f.body = lf.body := by
  rw [gp_succ_some types fuel d (ns ++ [lastN]) hin] at h
  cases hl : lookupInherits types (ns ++ [lastN]) with
  | error e =>
    rw [hl] at h
    cases h
  | ok parents =>
    rw [hl] at h
    obtain ⟨ds', ld, hds, hdef⟩ := lookupInherits_last types ns lastN parents hl
    subst hds
    obtain ⟨lf, hrec, hbody⟩ :=
      flattenInherits_last (getProperties types fuel) ds' ld _ f h
    exact ⟨ld, lf, hdef, hrec, hbody⟩

def c2A : TypeDef := .request "A" [] [] true none

def c2R : TypeDef := .request "R" [] [] false (some ["A"])

def c2Types : List TypeDef := [c2R, c2A]

/-- C2, witness: a body-less request inheriting from a body-declaring
last ancestor flattens to that ancestor's `yesBody` state. -/
theorem c2_witness :
    ∃ ld lf, getDefinition c2Types "A" = some ld ∧
      getProperties c2Types 1 ld = Except.ok lf ∧
      (⟨[], [], Body.yesBody⟩ : Flattened).body = lf.body :=
  c2_body_last_ancestor c2Types 1 c2R ⟨[], [], Body.yesBody⟩ [] "A" rfl rfl

/-- C3: every entity reached through the (reflexive-transitive) resolved
`inherits` relation contributes its own declared path and query
properties to any successful flattening of the root entity: the
inherited property groups are unioned into the accumulator. -/
theorem c3_inherited_union (types : List TypeDef) (d a : TypeDef) (hr : Reaches types d a) :
    ∀ (fuel : Nat) (f : Flattened), getProperties types fuel d = Except.ok f →
      (ownProperties a).path ⊆ f.path ∧ (ownProperties a).query ⊆ f.query := by
  induction hr with
  | refl d => exact fun fuel f h => getProperties_own_sub types fuel d f h
  | step inhs i hinh hi hdef hr ih =>
    intro fuel f h
    cases fuel with
    | zero =>
      rw [gp_zero] at h
      cases h
    | succ fuel =>
      rw [gp_succ_some types fuel _ inhs hinh] at h
      cases hl : lookupInherits types inhs with
      | error e =>
        rw [hl] at h
        cases h
      | ok parents =>
        rw [hl] at h
        have hmem := lookupInherits_mem types inhs parents hl i hi _ hdef
        obtain ⟨pf, hrec, hps, hqs⟩ :=
          flattenInherits_mem (getProperties types fuel) parents _ f _ h hmem
        obtain ⟨ihp, ihq⟩ := ih fuel pf hrec
        exact ⟨List.Subset.trans ihp hps, List.Subset.trans ihq hqs⟩

def c3A : TypeDef := .request "A" [⟨"id"⟩] [] false none

def c3B : TypeDef := .request "B" [⟨"index"⟩] [] false none

def c3R : TypeDef := .request "R" [] [] false (some ["A", "B"])

def c3Types : List TypeDef := [c3R, c3A, c3B]

def c3Flat : Flattened := ⟨[⟨"id"⟩, ⟨"index"⟩], [], Body.noBody⟩

/-- C3, witness: `R` inherits from `A` (path `id`) and `B` (path `index`)
and declares no path property of its own; its flattened path contains
both `id` and `index`. -/
theorem c3_witness :
    getProperties c3Types 2 c3R = Except.ok c3Flat ∧
    Property.mk "id" ∈ c3Flat.path ∧ Property.mk "index" ∈ c3Flat.path := by
  refine ⟨rfl, ?_, ?_⟩
  · exact (c3_inherited_union c3Types c3R c3A
      (Reaches.step ["A", "B"] "A" rfl (by decide) rfl (Reaches.refl c3A))
      2 c3Flat rfl).1 (by decide)
  · exact (c3_inherited_union c3Types c3R c3B
      (Reaches.step ["A", "B"] "B" rfl (by decide) rfl (Reaches.refl c3B))
      2 c3Flat rfl).1 (by decide)

/-- C4: body reconciliation of an endpoint emits exactly the warnings of
the claimed case table: (no body, spec body not required) none; (no body,
spec body required) one; (body, no spec body) one; (body, spec body
present with any required value) none. -/
theorem c4_body_cases (rq : String) (rd : Flattened) (spec : JsonSpec) :
    (rd.body = Body.noBody → spec.body = some ⟨false⟩ → checkBody rq rd spec = []) ∧
    (rd.body = Body.noBody → spec.body = some ⟨true⟩ →
      checkBody rq rd spec = [Warning.bodyExpected rq]) ∧
    (rd.body = Body.yesBody → spec.body = none →
      checkBody rq rd spec = [Warning.bodyNotExpected rq]) ∧
    (∀ sb, rd.body = Body.yesBody → spec.body = some sb →
      checkBody rq rd spec = []) := by
  refine ⟨fun h1 h2 => ?_, fun h1 h2 => ?_, fun h1 h2 => ?_, fun sb h1 h2 => ?_⟩ <;>
    simp [checkBody, specBodyRequiredTrue, h1, h2]

/-- C4, witness: a body-less model against a spec with a required body
warns exactly once. -/
theorem c4_witness :
    checkBody "r" ⟨[], [], Body.noBody⟩
      { url := ⟨[]⟩, params := none, body := some ⟨true⟩ } =
      [Warning.bodyExpected "r"] :=
  (c4_body_cases "r" ⟨[], [], Body.noBody⟩
    { url := ⟨[]⟩, params := none, body := some ⟨true⟩ }).2.1 rfl rfl

def c5Spec : JsonSpec :=
  { url := ⟨[⟨some ["id"]⟩, ⟨some ["version"]⟩]⟩, params := none, body := none }

/-- C5: path reconciliation warns exactly on the symmetric set difference
between the flattened path names and the union of distinct spec
path-part names; in the concrete scenario (model `id` versus spec
`id, version`) exactly one warning is emitted, for `version`. -/
theorem c5_path_symmetric_diff :
    (∀ (rq : String) (rd : Flattened) (spec : JsonSpec) (n : String),
      (Warning.pathNotInSpec rq n ∈ checkPath rq rd spec ↔
        n ∈ pathProperties rd ∧ n ∉ urlParts spec) ∧
      (Warning.pathNotInModel rq n ∈ checkPath rq rd spec ↔
        n ∈ urlParts spec ∧ n ∉ pathProperties rd)) ∧
    checkPath "R" ⟨[⟨"id"⟩], [], Body.noBody⟩ c5Spec =
      [Warning.pathNotInModel "R" "version"] := by
  refine ⟨fun rq rd spec n => ⟨⟨?_, ?_⟩, ⟨?_, ?_⟩⟩, rfl⟩
  · intro hw
    simp only [checkPath, List.mem_append, List.mem_map, List.mem_filter] at hw
    rcases hw with ⟨a, ⟨ha, hinc⟩, heq⟩ | ⟨a, ⟨ha, hinc⟩, heq⟩
    · cases heq
      exact ⟨ha, (includes_eq_false _ _).mp ((bnot_eq_true _).mp hinc)⟩
    · cases heq
  · rintro ⟨hmem, hnin⟩
    simp only [checkPath, List.mem_append, List.mem_map, List.mem_filter]
    exact Or.inl ⟨n, ⟨hmem, (bnot_eq_true _).mpr ((includes_eq_false _ _).mpr hnin)⟩, rfl⟩
  · intro hw
    simp only [checkPath, List.mem_append, List.mem_map, List.mem_filter] at hw
    rcases hw with ⟨a, ⟨ha, hinc⟩, heq⟩ | ⟨a, ⟨ha, hinc⟩, heq⟩
    · cases heq
    · cases heq
      exact ⟨ha, (includes_eq_false _ _).mp ((bnot_eq_true _).mp hinc)⟩
  · rintro ⟨hmem, hnin⟩
    simp only [checkPath, List.mem_append, List.mem_map, List.mem_filter]
    exact Or.inr ⟨n, ⟨hmem, (bnot_eq_true _).mpr ((includes_eq_false _ _).mpr hnin)⟩, rfl⟩

/-- C6: provided no endpoint's flattening runs out of fuel (the embedding
artefact standing for the acyclic-input assumption), the pass throws if
and only if some endpoint with a non-null request either fails its
definition lookup (directly, or through an `inherits` reference inside
the flattening, surfacing as a `definitionNotFound` error) or has no
json-spec entry under its endpoint name; endpoints with a null request
are skipped and warnings never abort the pass. -/
theorem c6_error_iff (fuel : Nat) (m : Model) (js : List (String × JsonSpec))
    (hfu : ∀ ep ∈ m.endpoints, endpointFuelOk m.types fuel ep = true) :
    (∃ e, (validateRestSpec fuel m js).2 = Except.error e) ↔
      ∃ ep ∈ m.endpoints, ∃ rn, ep.request = some rn ∧
        (getDefinition m.types rn = none
          ∨ (∃ n d, getDefinition m.types rn = some d ∧
              getProperties m.types fuel d = Except.error (VErr.definitionNotFound n))
          ∨ lookupSpec js ep.name = none) := by
  rw [validateRestSpec_error_iff]
  exact runEndpoints_error_iff m.types fuel js m.endpoints hfu

def c6R : TypeDef := .request "R" [] [] false none

def c6m : Model :=
  { endpoints := [{ name := "e", request := some "R" }], types := [c6R] }

def c6js : List (String × JsonSpec) := []

/-- C6, witness: an endpoint whose name has no json-spec entry makes the
pass throw. -/
theorem c6_witness : ∃ e, (validateRestSpec 1 c6m c6js).2 = Except.error e :=
  (c6_error_iff 1 c6m c6js (by decide)).mpr
    ⟨{ name := "e", request := some "R" }, by decide, "R", rfl, Or.inr (Or.inr rfl)⟩

def c7e1 : Endpoint := { name := "e1", request := some "R1" }

def c7e2 : Endpoint := { name := "e2", request := some "R2" }

def c7R1 : TypeDef := .request "R1" [⟨"id"⟩] [] false none

def c7m : Model := { endpoints := [c7e1, c7e2], types := [c7R1] }

def c7js : List (String × JsonSpec) :=
  [("e1", { url := ⟨[]⟩, params := none, body := none })]

/-- C7, counterexample: endpoint `e1` precedes the failing endpoint `e2`
(whose request `R2` has no definition); the run throws
`definitionNotFound` but the diagnostic of `e1` has already been emitted,
so the claim that no diagnostics are emitted for endpoints before the
failing one is false. -/
theorem c7_counterexample :
    validateRestSpec 2 c7m c7js =
      ([Warning.pathNotInSpec "R1" "id"], Except.error (VErr.definitionNotFound "R2")) ∧
    ([Warning.pathNotInSpec "R1" "id"] : List Warning) ≠ [] :=
  ⟨rfl, by decide⟩

/-- C7 (amended): when the endpoint list splits as `pre ++ bad :: post`
with every endpoint of `pre` processing without a fatal error and `bad`'s
request name unresolvable, the pass fails with `definitionNotFound` and
the emitted diagnostics are exactly the already-written diagnostics of
the preceding endpoints (abort-on-first, not collect-then-abort): nothing
is emitted for the failing endpoint or any endpoint after it. -/
theorem c7_abort_on_first (fuel : Nat) (m : Model) (js : List (String × JsonSpec))
    (pre post : List Endpoint) (bad : Endpoint) (rn : String)
    (hends : m.endpoints = pre ++ bad :: post)
    (hpre : ∀ ep ∈ pre, (runEndpoint m.types fuel js ep).2 = Except.ok ())
    (hbad : bad.request = some rn)
    (hmiss : getDefinition m.types rn = none) :
    validateRestSpec fuel m js =
      ((pre.map fun ep => (runEndpoint m.types fuel js ep).1).flatten,
        Except.error (VErr.definitionNotFound rn)) := by
  have hre : runEndpoint m.types fuel js bad = ([], .error (.definitionNotFound rn)) := by
    simp [runEndpoint, hbad, hmiss]
  have hrun : ∀ pre' : List Endpoint,
      (∀ ep ∈ pre', (runEndpoint m.types fuel js ep).2 = Except.ok ()) →
      runEndpoints m.types fuel js (pre' ++ bad :: post) =
        ((pre'.map fun ep => (runEndpoint m.types fuel js ep).1).flatten,
          Except.error (VErr.definitionNotFound rn)) := by
    intro pre'
    induction pre' with
    | nil =>
      intro _
      rw [List.nil_append, runEndpoints_cons, hre]
      rfl
    | cons p ps ih =>
      intro hp
      have hp0 := hp p (List.mem_cons_self _ _)
      have hrec := ih fun q hq => hp q (List.mem_cons_of_mem _ hq)
      rw [List.cons_append, runEndpoints_cons, hrec]
      cases hq0 : runEndpoint m.types fuel js p with
      | mk ws r =>
        rw [hq0] at hp0
        cases r with
        | error e => cases hp0
        | ok u =>
          simp only [List.map_cons, List.flatten_cons]
          rw [hq0]
  simp only [validateRestSpec]
  rw [hends, hrun pre hpre]

/-- C7, witness for the amended claim: applying it to the concrete model
of the counterexample yields the first endpoint's warning followed by the
fatal error. -/
theorem c7_witness :
    validateRestSpec 2 c7m c7js =
      ([Warning.pathNotInSpec "R1" "id"], Except.error (VErr.definitionNotFound "R2")) := by
  have h := c7_abort_on_first 2 c7m c7js [c7e1] [] c7e2 "R2" rfl
    (by
      intro ep hep
      rw [List.mem_singleton] at hep
      subst hep
      rfl)
    rfl rfl
  exact h

/-- C8: whenever the pass completes without throwing, the returned model
is the very model it was given (the embedding is a pure function of its
inputs, so neither the model nor the spec map can be mutated). -/
theorem c8_model_returned (fuel : Nat) (m : Model) (js : List (String × JsonSpec))
    (ws : List Warning) (m' : Model)
    (h : validateRestSpec fuel m js = (ws, Except.ok m')) : m' = m := by
  unfold validateRestSpec at h
  cases hr : runEndpoints m.types fuel js m.endpoints with
  | mk ws' r =>
    rw [hr] at h
    cases r with
    | ok u =>
      injection h with h1 h2
      injection h2 with h3
      exact h3.symm
    | error e =>
      injection h with h1 h2
      cases h2

def c8R : TypeDef := .request "R" [] [] false none

def c8m : Model :=
  { endpoints := [{ name := "e", request := some "R" }], types := [c8R] }

def c8js : List (String × JsonSpec) :=
  [("e", { url := ⟨[]⟩, params := none, body := none })]

/-- C8, witness: a concrete clean run returns exactly the input model. -/
theorem c8_witness : c8m = c8m :=
  c8_model_returned 1 c8m c8js [] c8m rfl

/-- C9: given any height function witnessing acyclicity of the resolved
`inherits` relation on the model's types (each resolved parent strictly
lower than its child), flattening any declared entity never exhausts its
fuel once the fuel exceeds the entity's height: the recursion terminates
with depth bounded by the inheritance graph's depth; without such a
witness no bound is claimed, matching the guard-less source. -/
theorem c9_termination (types : List TypeDef) (height : TypeDef → Nat)
    (hacyc : ∀ d ∈ types, ∀ p, parentOf types d p → height p < height d) :
    ∀ (fuel : Nat) (d : TypeDef), d ∈ types → height d < fuel →
      getProperties types fuel d ≠ Except.error VErr.outOfFuel := by
  intro fuel
  induction fuel with
  | zero =>
    intro d _ hlt
    exact absurd hlt (Nat.not_lt_zero _)
  | succ fuel ih =>
    intro d hd hlt h
    cases hin : inheritsOf d with
    | none =>
      rw [gp_succ_none types fuel d hin] at h
      cases h
    | some inhs =>
      rw [gp_succ_some types fuel d inhs hin] at h
      cases hl : lookupInherits types inhs with
      | error e =>
        rw [hl] at h
        cases h
        obtain ⟨n, hn⟩ := lookupInherits_err types inhs _ hl
        cases hn
      | ok parents =>
        rw [hl] at h
        refine flattenInherits_no_oof (getProperties types fuel) parents
          (ownProperties d) ?_ h
        intro p hp hcon
        obtain ⟨i, hi, hdef⟩ := lookupInherits_mem_rev types inhs parents hl p hp
        have hlt' := hacyc d hd p ⟨inhs, i, hin, hi, hdef⟩
        exact ih p (getDefinition_mem types i p hdef) (by omega) hcon

def c9B : TypeDef := .request "B" [] [] false none

def c9A : TypeDef := .request "A" [] [] false (some ["B"])

def c9Types : List TypeDef := [c9A, c9B]

def c9Height : TypeDef → Nat :=
  fun d =>
    match d with
    | .request "A" _ _ _ _ => 1
    | _ => 0

/-- C9, witness: for the two-element chain `A` inherits `B`, fuel `2`
(one more than the chain's height) never exhausts. -/
theorem c9_witness : getProperties c9Types 2 c9A ≠ Except.error VErr.outOfFuel :=
  c9_termination c9Types c9Height
    (by
      intro d hd p hp
      obtain ⟨inhs, i, hinh, hi, hdef⟩ := hp
      rcases List.mem_cons.mp hd with h1 | h1
      · subst h1
        rw [show inheritsOf c9A = some ["B"] from rfl] at hinh
        cases hinh
        rw [List.mem_singleton] at hi
        subst hi
        rw [show getDefinition c9Types "B" = some c9B from rfl] at hdef
        cases hdef
        decide
      · rw [List.mem_singleton] at h1
        subst h1
        rw [show inheritsOf c9B = (none : Option (List String)) from rfl] at hinh
        cases hinh)
    2 c9A (by decide) (by decide)

def c10A : TypeDef := .request "A" [⟨"id"⟩] [] false none

def c10B : TypeDef := .request "B" [⟨"id"⟩] [] false none

def c10R : TypeDef := .request "R" [] [] false (some ["A", "B"])

def c10R1 : TypeDef := .request "R" [] [] false (some ["A"])

def c10m : Model :=
  { endpoints := [{ name := "e", request := some "R" }], types := [c10R, c10A, c10B] }

def c10m1 : Model :=
  { endpoints := [{ name := "e", request := some "R" }], types := [c10R1, c10A, c10B] }

def c10js : List (String × JsonSpec) :=
  [("e", { url := ⟨[]⟩, params := none, body := none })]

/-- C10, counterexample: `R` inherits the path name `id` from both `A`
and `B`, so the flattened path carries `id` twice and the run emits the
missing-from-spec warning twice; with a single occurrence (inheriting
only from `A`) the same membership situation emits it once — the
diagnostics are not invariant under collapsing duplicates, so the
duplicate-tolerance claim is false. -/
theorem c10_counterexample :
    getProperties c10m.types 3 c10R =
      Except.ok ⟨[⟨"id"⟩, ⟨"id"⟩], [], Body.noBody⟩ ∧
    validateRestSpec 3 c10m c10js =
      ([Warning.pathNotInSpec "R" "id", Warning.pathNotInSpec "R" "id"],
        Except.ok c10m) ∧
    validateRestSpec 3 c10m1 c10js =
      ([Warning.pathNotInSpec "R" "id"], Except.ok c10m1) ∧
    ([Warning.pathNotInSpec "R" "id", Warning.pathNotInSpec "R" "id"] : List Warning) ≠
      [Warning.pathNotInSpec "R" "id"] :=
  ⟨rfl, rfl, rfl, by decide⟩

/-- C10 (amended): the spec-side comparison is duplicate-tolerant — the
spec part union is deduplicated and the model side is tested by
membership, so a spec name missing from the model warns exactly once —
but the model-side comparison is multiplicity-sensitive: a flattened path
name missing from the spec warns once per occurrence in the flattened
result. -/
theorem c10_multiplicity (rq n : String) (rd : Flattened) (spec : JsonSpec) :
    occCount (Warning.pathNotInSpec rq n) (checkPath rq rd spec) =
      (if n ∈ urlParts spec then 0 else occCount n (pathProperties rd)) ∧
    occCount (Warning.pathNotInModel rq n) (checkPath rq rd spec) =
      (if n ∈ urlParts spec ∧ n ∉ pathProperties rd then 1 else 0) := by
  have hinj1 : ∀ x y, Warning.pathNotInSpec rq x = Warning.pathNotInSpec rq y → x = y := by
    intro x y hxy
    cases hxy
    rfl
  have hinj2 : ∀ x y, Warning.pathNotInModel rq x = Warning.pathNotInModel rq y → x = y := by
    intro x y hxy
    cases hxy
    rfl
  constructor
  · simp only [checkPath]
    rw [occCount_append,
      occCount_map_ne (Warning.pathNotInModel rq) _ (fun x => by simp),
      Nat.add_zero, occCount_map_inj (Warning.pathNotInSpec rq) hinj1,
      occCount_filter]
    by_cases hmem : n ∈ urlParts spec
    · have hc : includes (urlParts spec) n = true := (includes_iff _ _).mpr hmem
      simp [hc, hmem]
    · have hc : includes (urlParts spec) n = false := (includes_eq_false _ _).mpr hmem
      simp [hc, hmem]
  · simp only [checkPath]
    rw [occCount_append,
      occCount_map_ne (Warning.pathNotInSpec rq) _ (fun x => by simp),
      Nat.zero_add, occCount_map_inj (Warning.pathNotInModel rq) hinj2,
      occCount_filter]
    by_cases hmod : n ∈ pathProperties rd
    · have hc : includes (pathProperties rd) n = true := (includes_iff _ _).mpr hmod
      simp [hc, hmod]
    · have hc : includes (pathProperties rd) n = false := (includes_eq_false _ _).mpr hmod
      rw [occCount_urlParts]
      simp [hc, hmod]

end RestSpecValidation
